import Mathlib

/-!
Shallow embedding of the tic-tac-toe TUI (src/tictactoe.rs, src/entities.rs,
src/main.rs).  Boards are lists of players; the `HashMap<i32, Vec<i32>>`
scratch map is an association list; the unbounded Rust recursion of
`get_best_move` is given a fuel parameter (fuel 10 suffices for every
9-cell board, which has at most 9 empty cells); a Rust panic is modelled
as `Option.none`; the random tie break `choose(&mut rand::thread_rng())`
is an oracle `ch : List Int → Int`, assumed in theorems to pick an
element of its (non-empty) argument.
-/

namespace TicTacToe

/-- The `Player` enum of src/entities.rs. -/
inductive Player
  | O
  | X
  | None
  deriving DecidableEq, Repr, Fintype

/-- `Player::get_opponent` of src/entities.rs. -/
def Player.get_opponent : Player → Player
  | .X => .O
  | .O => .X
  | .None => .None

/-- A board is `Vec<Player>`; all boards produced by the app have length 9. -/
abbrev Board := List Player

/-- The `GameResult` enum of src/entities.rs. -/
inductive GameResult
  | Playing
  | Win (p : Player)
  | Draw
  deriving DecidableEq, Repr

/-- `TicTacToe::get_available_moves`: indices of the `Empty` (`Player::None`)
cells, in the order produced by `iter().enumerate().filter(..).map(..)`. -/
def get_available_moves (board : Board) : List Nat :=
  ((board.enum.filter (fun x => x.2 == Player.None)).map (fun x => x.1))

/-- `TicTacToe::is_empty`: count of non-`None` cells is zero. -/
def is_empty (board : Board) : Bool :=
  ((board.map (fun x => x != Player.None)).filter (fun x => x)).length == 0

/-- `TicTacToe::is_full`: count of `None` cells is zero. -/
def is_full (board : Board) : Bool :=
  ((board.map (fun x => x == Player.None)).filter (fun x => x)).length == 0

/-- `TicTacToe::get_empty_board` with `BOARD_SIZE = 3`. -/
def get_empty_board : Board :=
  (List.range (3 * 3)).map (fun _ => Player.None)

/-- `TicTacToe::get_game_result`.  Rust's `board[i]` is total here via
`getD`; every use in the repository indexes a 9-cell board in bounds. -/
def get_game_result (board : Board) : GameResult :=
  if is_empty board then GameResult.Playing
  else
    let b := fun i => board.getD i Player.None
    -- Check Horizontal Wins
    if b 0 != Player.None && b 0 == b 1 && b 0 == b 2 then GameResult.Win (b 0)
    else if b 3 != Player.None && b 3 == b 4 && b 3 == b 5 then GameResult.Win (b 3)
    else if b 6 != Player.None && b 6 == b 7 && b 6 == b 8 then GameResult.Win (b 6)
    -- Check Vertical Wins
    else if b 0 != Player.None && b 0 == b 3 && b 0 == b 6 then GameResult.Win (b 0)
    else if b 1 != Player.None && b 1 == b 4 && b 1 == b 7 then GameResult.Win (b 1)
    else if b 2 != Player.None && b 2 == b 5 && b 2 == b 8 then GameResult.Win (b 2)
    -- Check Diagonal Wins
    else if b 0 != Player.None && b 0 == b 4 && b 0 == b 8 then GameResult.Win (b 0)
    else if b 2 != Player.None && b 2 == b 4 && b 2 == b 6 then GameResult.Win (b 2)
    -- Draw
    else if is_full board then GameResult.Draw
    else GameResult.Playing

/-- The board passed to each recursive search call:
`let mut board_2 = board.clone(); board_2[index] = mover;`.
The index always comes from `get_available_moves`, hence is in bounds. -/
def child_board (board : Board) (mover : Player) (index : Nat) : Board :=
  board.set index mover

/-- The scratch map `HashMap<i32, Vec<i32>>`, as an association list. -/
abbrev NodesMap := List (Int × List Int)

/-- `HashMap::get`. -/
def map_get (m : NodesMap) (k : Int) : Option (List Int) :=
  (m.find? (fun e => e.1 == k)).map (fun e => e.2)

/-- `HashMap::insert` (replaces any previous binding of the key). -/
def map_insert (m : NodesMap) (k : Int) (v : List Int) : NodesMap :=
  (k, v) :: m.filter (fun e => e.1 != k)

/-- The root (`depth == 0`) epilogue of `get_best_move`:
`nodes_map.get(&best).unwrap()`, then a random element when several moves
share the best value, else `moves[0]`.  The two `Option.none` arms model
the `unwrap` panic on a missing key and the `moves[0]` panic on an empty
vector. -/
def finish_root (ch : List Int → Int) (best : Int) (m : NodesMap) :
    Option (Int × NodesMap) :=
  match map_get m best with
  | Option.none => Option.none
  | some moves =>
    if moves.length > 1 then some (ch moves, m)
    else
      match moves.head? with
      | some v => some (v, m)
      | Option.none => Option.none

/-- The `for index in available_moves` loop of `get_best_move`.  The source
duplicates this block once for the maximizing branch (mover `player`,
`max`, recursing with `false`) and once for the minimizing branch (mover
`player.get_opponent()`, `min`, recursing with `true`); here the branch is
the `maximizing` flag and the child call is passed in by the caller.
At `depth == 0` each child value is recorded in the scratch map with its
move index appended. -/
def gbm_loop (depth : Int) (childCall : Board → NodesMap → Option (Int × NodesMap))
    (mover : Player) (board : Board) (maximizing : Bool) :
    List Nat → Int → NodesMap → Option (Int × NodesMap)
  | [], best, m => some (best, m)
  | index :: rest, best, m =>
    match childCall (child_board board mover index) m with
    | Option.none => Option.none
    | some (node_value, m1) =>
      let best_2 := if maximizing then max best node_value else min best node_value
      let m2 :=
        if depth == (0 : Int) then
          map_insert m1 node_value
            (match map_get m1 node_value with
             | some moves => moves ++ [(index : Int)]
             | Option.none => [(index : Int)])
        else m1
      gbm_loop depth childCall mover board maximizing rest best_2 m2

/-- `TicTacToe::get_best_move`.  `fuel` bounds the recursion depth (the
Rust recursion is unbounded but consumes one empty cell per level, so fuel
10 is enough for a 9-cell board); running out of fuel models
non-termination and yields `Option.none`, as do the root-epilogue panics.
`max_depth` is `-1` in the source, so the `depth == max_depth` disjunct of
the terminal test only fires at depth `-1`; every caller starts at 0. -/
def get_best_move (ch : List Int → Int) (fuel : Nat) (board : Board)
    (player : Player) (is_maximizing : Bool) (depth : Int) (nodes_map : NodesMap) :
    Option (Int × NodesMap) :=
  match fuel with
  | 0 => Option.none
  | fuel + 1 =>
    let result := get_game_result board
    if result != GameResult.Playing || depth == (-1 : Int) then
      if result == GameResult.Win player then some (100 - depth, nodes_map)
      else if result == GameResult.Win player.get_opponent then some (-100 + depth, nodes_map)
      else some (0, nodes_map)
    else if is_maximizing then
      match gbm_loop depth (fun b2 m => get_best_move ch fuel b2 player false (depth + 1) m)
          player board true (get_available_moves board) (-100) nodes_map with
      | Option.none => Option.none
      | some (best, m) =>
        if depth == (0 : Int) then finish_root ch best m else some (best, m)
    else
      match gbm_loop depth (fun b2 m => get_best_move ch fuel b2 player true (depth + 1) m)
          player.get_opponent board false (get_available_moves board) 100 nodes_map with
      | Option.none => Option.none
      | some (best, m) =>
        if depth == (0 : Int) then finish_root ch best m else some (best, m)

/-- The pure minimax value computed by the non-root levels of
`get_best_move` (at `depth ≠ 0` the scratch map is never written and the
random tie break is never consulted, so the search returns exactly this
number).  Runs out of fuel to the junk value 0; every theorem supplies
enough fuel. -/
def mm (fuel : Nat) (board : Board) (player : Player)
    (is_maximizing : Bool) (depth : Int) : Int :=
  match fuel with
  | 0 => 0
  | fuel + 1 =>
    let result := get_game_result board
    if result != GameResult.Playing || depth == (-1 : Int) then
      if result == GameResult.Win player then 100 - depth
      else if result == GameResult.Win player.get_opponent then -100 + depth
      else 0
    else if is_maximizing then
      (get_available_moves board).foldl
        (fun best index => max best (mm fuel (child_board board player index) player false (depth + 1)))
        (-100)
    else
      (get_available_moves board).foldl
        (fun best index => min best (mm fuel (child_board board player.get_opponent index) player true (depth + 1)))
        100

/-- The value `get_best_move` computes for one child of the root call:
the minimax score of the board after playing `player` at `index`
(depth 1, fuel 9 — always sufficient below a 9-cell root). -/
def child_score (board : Board) (player : Player) (index : Nat) : Int :=
  mm 9 (child_board board player index) player false 1

/-- Rust's `as usize` cast of an `i32` root result on a 64-bit target:
sign extension, so negative scores become huge indices. -/
def int_to_usize (i : Int) : Nat :=
  (i % (2 ^ 64 : Int)).toNat

/-- `App::play_as_computer` of src/main.rs: skip when the board is full,
otherwise run the root search for the human's opponent and write its mark
at the returned index when `index <= board.len()`; `index == board.len()`
would make `self.board[index]` panic (`Option.none`), `index > len`
leaves the board unchanged. -/
def play_as_computer (ch : List Int → Int) (board : Board) (player : Player) :
    Option Board :=
  if is_full board then some board
  else
    match get_best_move ch 10 board player.get_opponent true 0 [] with
    | Option.none => Option.none
    | some (idx, _) =>
      let index := int_to_usize idx
      if index ≤ board.length then
        if index < board.length then some (board.set index player.get_opponent)
        else Option.none
      else some board

/-- Boards the app can reach while `human` plays against the computer:
the empty board (game start, and the r/s resets), and each board obtained
from a reachable one by the `Enter` handler — the human writes their mark
on an `Empty` cell of a still-`Playing` board, then `play_as_computer`
replies, with a fresh tie-break oracle each turn. -/
inductive Reachable (human : Player) : Board → Prop
  | init : Reachable human get_empty_board
  | step (b b2 : Board) (i : Nat) (ch : List Int → Int) :
      Reachable human b →
      get_game_result b = GameResult.Playing →
      i < 9 →
      b.getD i Player.None = Player.None →
      (∀ l : List Int, l ≠ [] → ch l ∈ l) →
      play_as_computer ch (b.set i human) human = some b2 →
      Reachable human b2

/-- The 8 winning lines in the order src checks them: rows, columns,
diagonals (spec: "Check the 8 winning lines in this exact order"). -/
def lines : List (Nat × Nat × Nat) :=
  [(0, 1, 2), (3, 4, 5), (6, 7, 8),
   (0, 3, 6), (1, 4, 7), (2, 5, 8),
   (0, 4, 8), (2, 4, 6)]

/-- Modelled from the spec: a line is complete when its three cells hold
the same non-`Empty` mark. -/
def line_won (board : Board) (l : Nat × Nat × Nat) : Bool :=
  let b := fun i => board.getD i Player.None
  b l.1 != Player.None && b l.1 == b l.2.1 && b l.1 == b l.2.2

/-- Number of `Empty` cells; the termination measure of the search. -/
def noneCount (board : Board) : Nat :=
  board.countP (fun c => c == Player.None)

/-- Recursive restatement of `get_available_moves` (the indices `≥ n` of the
empty cells of the suffix), used to reason by induction on the board. -/
def availFrom (n : Nat) : Board → List Nat
  | [] => []
  | c :: l => if c == Player.None then n :: availFrom (n + 1) l else availFrom (n + 1) l

/-- The per-root-child record `sel P k`: among the already processed move
indices `P`, those whose child score is `k`, as the `i32` values pushed into
the scratch map (in processing order). -/
def sel (board : Board) (player : Player) (P : List Nat) (k : Int) : List Int :=
  (P.filter (fun i => child_score board player i == k)).map Int.ofNat

/-- Pattern-matched restatement of `get_game_result` on 9-cell boards,
cheap enough for the kernel to evaluate inside the game-tree certificate. -/
def res9 (b : Board) : GameResult :=
  match b with
  | [c0, c1, c2, c3, c4, c5, c6, c7, c8] =>
    if c0 != Player.None && c0 == c1 && c0 == c2 then GameResult.Win c0
    else if c3 != Player.None && c3 == c4 && c3 == c5 then GameResult.Win c3
    else if c6 != Player.None && c6 == c7 && c6 == c8 then GameResult.Win c6
    else if c0 != Player.None && c0 == c3 && c0 == c6 then GameResult.Win c0
    else if c1 != Player.None && c1 == c4 && c1 == c7 then GameResult.Win c1
    else if c2 != Player.None && c2 == c5 && c2 == c8 then GameResult.Win c2
    else if c0 != Player.None && c0 == c4 && c0 == c8 then GameResult.Win c0
    else if c2 != Player.None && c2 == c4 && c2 == c6 then GameResult.Win c2
    else if [c0, c1, c2, c3, c4, c5, c6, c7, c8].all (fun c => c != Player.None) then
      GameResult.Draw
    else GameResult.Playing
  | _ => GameResult.Playing

/-- If line `l` holds two `p` marks and one empty cell, the index of that
empty (winning) cell. -/
def line_win_square (b : Board) (p : Player) (l : Nat × Nat × Nat) : Option Nat :=
  let x := b.getD l.1 Player.None
  let y := b.getD l.2.1 Player.None
  let z := b.getD l.2.2 Player.None
  if x == p && y == p && z == Player.None then some l.2.2
  else if x == p && z == p && y == Player.None then some l.2.1
  else if y == p && z == p && x == Player.None then some l.1
  else Option.none

/-- First immediately winning square for `p`, if any. -/
def find_win (b : Board) (p : Player) : Option Nat :=
  lines.findSome? (line_win_square b p)

/-- Number of lines on which `p` threatens to win next move. -/
def threat_count (b : Board) (p : Player) : Nat :=
  lines.countP (fun l => (line_win_square b p l).isSome)

/-- A concrete second-player strategy (win, block, fork, parry the
opponent's fork, centre, opposite corner, corner, side), used only as a
certificate: `chk` verifies exhaustively that following it the computer
mark `C` never loses. -/
def comp_strategy (C : Player) (b : Board) : Nat :=
  let H := C.get_opponent
  let avail := get_available_moves b
  match find_win b C with
  | some i => i
  | Option.none =>
  match find_win b H with
  | some i => i
  | Option.none =>
  match avail.find? (fun i => threat_count (b.set i C) C ≥ 2) with
  | some i => i
  | Option.none =>
  let humanForks := avail.filter (fun i => threat_count (b.set i H) H ≥ 2)
  if humanForks.isEmpty then
    if b.getD 4 Player.None == Player.None then 4
    else
      match ([(0, 8), (2, 6), (6, 2), (8, 0)].find?
          (fun q => b.getD q.1 Player.None == H && b.getD q.2 Player.None == Player.None)) with
      | some q => q.2
      | Option.none =>
        match [0, 2, 6, 8].find? (fun i => b.getD i Player.None == Player.None) with
        | some i => i
        | Option.none => avail.headD 0
  else
    match avail.find? (fun i =>
        let b2 := b.set i C
        threat_count b2 C ≥ 1 &&
        ((get_available_moves b2).all (fun s =>
          !(find_win b2 C == some s) || (threat_count (b2.set s H) H < 2)))) with
    | some i => i
    | Option.none => humanForks.headD 0

/-- Game-tree certificate checker: with `C` following `comp_strategy` and
the opponent trying every available move, every terminal position reached
is a win for `C` or a draw. -/
def chk (C : Player) : Nat → Board → Bool → Bool
  | 0, _, _ => false
  | fuel + 1, b, cToMove =>
    let r := res9 b
    if r != GameResult.Playing then
      r == GameResult.Win C || r == GameResult.Draw
    else if cToMove then
      let j := comp_strategy C b
      (get_available_moves b).contains j && chk C fuel (b.set j C) false
    else
      (get_available_moves b).all (fun i => chk C fuel (b.set i C.get_opponent) true)

/-! ### Basic lemmas about players, the scratch map and available moves -/

lemma opp_ne_none {p : Player} (h : p ≠ Player.None) : p.get_opponent ≠ Player.None := by
  cases p <;> simp_all [Player.get_opponent]

lemma opp_opp {p : Player} (h : p ≠ Player.None) : p.get_opponent.get_opponent = p := by
  cases p <;> simp_all [Player.get_opponent]

lemma opp_ne_self {p : Player} (h : p ≠ Player.None) : p.get_opponent ≠ p := by
  cases p <;> simp_all [Player.get_opponent]

lemma player_cases (p : Player) (h : p ≠ Player.None) : p = Player.O ∨ p = Player.X := by
  cases p <;> simp_all

lemma map_get_insert_self (m : NodesMap) (k : Int) (v : List Int) :
    map_get (map_insert m k v) k = some v := by
  simp [map_get, map_insert, List.find?_cons]

lemma find?_filter_ne {k k2 : Int} (h : k2 ≠ k) : ∀ m : NodesMap,
    List.find? (fun e => e.1 == k2) (m.filter (fun e => e.1 != k)) =
      List.find? (fun e => e.1 == k2) m := by
  intro m
  induction m with
  | nil => rfl
  | cons e m ih =>
    by_cases he : e.1 = k2
    · have hek : (e.1 != k) = true := by simp [he, h]
      simp [List.filter_cons, hek, List.find?_cons, he, h, Ne.symm h]
    · have he2 : (e.1 == k2) = false := by simp [he]
      by_cases hek : e.1 = k
      · simp [List.filter_cons, hek, List.find?_cons, he2, ih, he, h, Ne.symm h]
      · simp [List.filter_cons, hek, List.find?_cons, he2, ih, he]

lemma map_get_insert_ne (m : NodesMap) (k k2 : Int) (v : List Int) (h : k2 ≠ k) :
    map_get (map_insert m k v) k2 = map_get m k2 := by
  have hk : (k == k2) = false := by simp [Ne.symm h]
  simp [map_get, map_insert, List.find?_cons, hk, find?_filter_ne h]

lemma avail_eq_availFrom (board : Board) :
    get_available_moves board = availFrom 0 board := by
  suffices h : ∀ (l : Board) (n : Nat),
      ((List.enumFrom n l).filter (fun x => x.2 == Player.None)).map (fun x => x.1) =
        availFrom n l by
    simpa [get_available_moves, List.enum] using h board 0
  intro l
  induction l with
  | nil => intro n; rfl
  | cons c l ih =>
    intro n
    by_cases hc : c = Player.None <;>
      simp [List.enumFrom, availFrom, hc, List.filter_cons, ih]

lemma availFrom_cons (n : Nat) (c : Player) (l : Board) :
    availFrom n (c :: l) =
      if c = Player.None then n :: availFrom (n + 1) l else availFrom (n + 1) l := by
  by_cases hc : c = Player.None <;> simp [availFrom, hc]

lemma mem_availFrom : ∀ (l : Board) (n i : Nat),
    i ∈ availFrom n l ↔
      ∃ j, i = n + j ∧ j < l.length ∧ l.getD j Player.None = Player.None := by
  intro l
  induction l with
  | nil => intro n i; simp [availFrom]
  | cons c l ih =>
    intro n i
    rw [availFrom_cons]
    by_cases hc : c = Player.None
    · rw [if_pos hc]
      simp only [List.mem_cons, ih]
      constructor
      · rintro (rfl | ⟨j, rfl, hj, hg⟩)
        · exact ⟨0, by omega, by simp, by simp [hc]⟩
        · exact ⟨j + 1, by omega, by simpa using hj, by simpa using hg⟩
      · rintro ⟨j, rfl, hj, hg⟩
        cases j with
        | zero => left; omega
        | succ j =>
          right
          exact ⟨j, by omega, by simpa using hj, by simpa using hg⟩
    · rw [if_neg hc, ih]
      constructor
      · rintro ⟨j, rfl, hj, hg⟩
        exact ⟨j + 1, by omega, by simpa using hj, by simpa using hg⟩
      · rintro ⟨j, rfl, hj, hg⟩
        cases j with
        | zero => simp at hg; exact absurd hg hc
        | succ j =>
          exact ⟨j, by omega, by simpa using hj, by simpa using hg⟩

lemma avail_mem (board : Board) (i : Nat) :
    i ∈ get_available_moves board ↔
      i < board.length ∧ board.getD i Player.None = Player.None := by
  rw [avail_eq_availFrom, mem_availFrom]
  constructor
  · rintro ⟨j, rfl, hj, hg⟩
    refine ⟨by omega, ?_⟩
    simpa [Nat.zero_add] using hg
  · rintro ⟨hi, hg⟩; exact ⟨i, by omega, hi, hg⟩

lemma availFrom_lb : ∀ (l : Board) (n : Nat), ∀ i ∈ availFrom n l, n ≤ i := by
  intro l
  induction l with
  | nil => intro n i h; simp [availFrom] at h
  | cons c l ih =>
    intro n i h
    rw [availFrom_cons] at h
    by_cases hc : c = Player.None
    · rw [if_pos hc] at h
      rcases List.mem_cons.mp h with rfl | h
      · exact Nat.le_refl i
      · exact Nat.le_of_succ_le (ih (n + 1) i h)
    · rw [if_neg hc] at h
      exact Nat.le_of_succ_le (ih (n + 1) i h)

lemma availFrom_pairwise : ∀ (l : Board) (n : Nat),
    List.Pairwise (fun a b => a < b) (availFrom n l) := by
  intro l
  induction l with
  | nil => intro n; simp [availFrom]
  | cons c l ih =>
    intro n
    rw [availFrom_cons]
    by_cases hc : c = Player.None
    · rw [if_pos hc]
      refine List.Pairwise.cons ?_ (ih (n + 1))
      intro b hb
      exact Nat.lt_of_succ_le (availFrom_lb l (n + 1) b hb)
    · rw [if_neg hc]
      exact ih (n + 1)

lemma avail_pairwise (board : Board) :
    List.Pairwise (fun a b => a < b) (get_available_moves board) := by
  rw [avail_eq_availFrom]; exact availFrom_pairwise board 0

lemma availFrom_length : ∀ (l : Board) (n : Nat),
    (availFrom n l).length = noneCount l := by
  intro l
  induction l with
  | nil => intro n; rfl
  | cons c l ih =>
    intro n
    rw [availFrom_cons]
    by_cases hc : c = Player.None <;>
      simp [noneCount, hc, List.countP_cons, ih, Nat.add_comm]
lemma avail_length (board : Board) :
    (get_available_moves board).length = noneCount board := by
  rw [avail_eq_availFrom]; exact availFrom_length board 0

lemma is_full_eq (board : Board) : is_full board = (noneCount board == 0) := by
  induction board with
  | nil => rfl
  | cons c l ih =>
    by_cases hc : c = Player.None <;>
      simp_all [is_full, noneCount, List.filter_cons, List.countP_cons, hc]

lemma avail_nil_iff (board : Board) :
    get_available_moves board = [] ↔ is_full board = true := by
  rw [is_full_eq]
  constructor
  · intro h
    have := avail_length board
    rw [h] at this
    simpa using this.symm
  · intro h
    have hnc : noneCount board = 0 := by simpa using h
    have := avail_length board
    rw [hnc] at this
    exact List.length_eq_zero.mp this

lemma noneCount_le_length (board : Board) : noneCount board ≤ board.length :=
  List.countP_le_length _

lemma exists_nine (b : Board) (h : b.length = 9) :
    ∃ c0 c1 c2 c3 c4 c5 c6 c7 c8 : Player,
      b = [c0, c1, c2, c3, c4, c5, c6, c7, c8] := by
  obtain _ | ⟨c0, b⟩ := b; · simp at h
  obtain _ | ⟨c1, b⟩ := b; · simp at h
  obtain _ | ⟨c2, b⟩ := b; · simp at h
  obtain _ | ⟨c3, b⟩ := b; · simp at h
  obtain _ | ⟨c4, b⟩ := b; · simp at h
  obtain _ | ⟨c5, b⟩ := b; · simp at h
  obtain _ | ⟨c6, b⟩ := b; · simp at h
  obtain _ | ⟨c7, b⟩ := b; · simp at h
  obtain _ | ⟨c8, b⟩ := b; · simp at h
  obtain _ | ⟨c9, b⟩ := b
  · exact ⟨c0, c1, c2, c3, c4, c5, c6, c7, c8, rfl⟩
  · simp at h

/-! ### Characterizing `get_game_result` by the first winning line -/

lemma is_empty_iff_all : ∀ l : Board, is_empty l = true ↔ ∀ c ∈ l, c = Player.None := by
  intro l
  induction l with
  | nil => simp [is_empty]
  | cons c l ih =>
    by_cases hc : c = Player.None <;>
      simp_all [is_empty, List.filter_cons, hc]

lemma is_full_eq_all : ∀ l : Board, is_full l = l.all (fun c => c != Player.None) := by
  intro l
  induction l with
  | nil => rfl
  | cons c l ih =>
    by_cases hc : c = Player.None <;>
      simp_all [is_full, List.filter_cons, hc]

lemma line_won_fst {b : Board} {l : Nat × Nat × Nat} (h : line_won b l = true) :
    b.getD l.1 Player.None ≠ Player.None := by
  simp only [line_won, Bool.and_eq_true, bne_iff_ne] at h
  exact h.1.1

lemma classify_eq (board : Board) (hlen : board.length = 9) :
    get_game_result board =
      match lines.find? (line_won board) with
      | some l => GameResult.Win (board.getD l.1 Player.None)
      | Option.none => if is_full board then GameResult.Draw else GameResult.Playing := by
  obtain ⟨c0, c1, c2, c3, c4, c5, c6, c7, c8, rfl⟩ := exists_nine board hlen
  by_cases hemp : is_empty [c0, c1, c2, c3, c4, c5, c6, c7, c8] = true
  · have hall := (is_empty_iff_all _).mp hemp
    have e0 : c0 = Player.None := hall c0 (by simp)
    have e1 : c1 = Player.None := hall c1 (by simp)
    have e2 : c2 = Player.None := hall c2 (by simp)
    have e3 : c3 = Player.None := hall c3 (by simp)
    have e4 : c4 = Player.None := hall c4 (by simp)
    have e5 : c5 = Player.None := hall c5 (by simp)
    have e6 : c6 = Player.None := hall c6 (by simp)
    have e7 : c7 = Player.None := hall c7 (by simp)
    have e8 : c8 = Player.None := hall c8 (by simp)
    subst e0 e1 e2 e3 e4 e5 e6 e7 e8
    decide
  · have hgr : get_game_result [c0, c1, c2, c3, c4, c5, c6, c7, c8] =
        (if is_empty [c0, c1, c2, c3, c4, c5, c6, c7, c8] then GameResult.Playing
         else if c0 != Player.None && c0 == c1 && c0 == c2 then GameResult.Win c0
         else if c3 != Player.None && c3 == c4 && c3 == c5 then GameResult.Win c3
         else if c6 != Player.None && c6 == c7 && c6 == c8 then GameResult.Win c6
         else if c0 != Player.None && c0 == c3 && c0 == c6 then GameResult.Win c0
         else if c1 != Player.None && c1 == c4 && c1 == c7 then GameResult.Win c1
         else if c2 != Player.None && c2 == c5 && c2 == c8 then GameResult.Win c2
         else if c0 != Player.None && c0 == c4 && c0 == c8 then GameResult.Win c0
         else if c2 != Player.None && c2 == c4 && c2 == c6 then GameResult.Win c2
         else if is_full [c0, c1, c2, c3, c4, c5, c6, c7, c8] then GameResult.Draw
         else GameResult.Playing) := rfl
    simp only [lines]
    by_cases h1 : (c0 != Player.None && c0 == c1 && c0 == c2) = true
    · rw [List.find?_cons_of_pos _ (show line_won [c0, c1, c2, c3, c4, c5, c6, c7, c8] ((0 : Nat), (1 : Nat), (2 : Nat)) = true from h1), hgr, if_neg hemp, if_pos h1]
      rfl
    rw [List.find?_cons_of_neg _ (show ¬line_won [c0, c1, c2, c3, c4, c5, c6, c7, c8] ((0 : Nat), (1 : Nat), (2 : Nat)) = true from h1)]
    by_cases h2 : (c3 != Player.None && c3 == c4 && c3 == c5) = true
    · rw [List.find?_cons_of_pos _ (show line_won [c0, c1, c2, c3, c4, c5, c6, c7, c8] ((3 : Nat), (4 : Nat), (5 : Nat)) = true from h2), hgr, if_neg hemp, if_neg h1, if_pos h2]
      rfl
    rw [List.find?_cons_of_neg _ (show ¬line_won [c0, c1, c2, c3, c4, c5, c6, c7, c8] ((3 : Nat), (4 : Nat), (5 : Nat)) = true from h2)]
    by_cases h3 : (c6 != Player.None && c6 == c7 && c6 == c8) = true
    · rw [List.find?_cons_of_pos _ (show line_won [c0, c1, c2, c3, c4, c5, c6, c7, c8] ((6 : Nat), (7 : Nat), (8 : Nat)) = true from h3), hgr, if_neg hemp, if_neg h1, if_neg h2, if_pos h3]
      rfl
    rw [List.find?_cons_of_neg _ (show ¬line_won [c0, c1, c2, c3, c4, c5, c6, c7, c8] ((6 : Nat), (7 : Nat), (8 : Nat)) = true from h3)]
    by_cases h4 : (c0 != Player.None && c0 == c3 && c0 == c6) = true
    · rw [List.find?_cons_of_pos _ (show line_won [c0, c1, c2, c3, c4, c5, c6, c7, c8] ((0 : Nat), (3 : Nat), (6 : Nat)) = true from h4), hgr, if_neg hemp, if_neg h1, if_neg h2, if_neg h3,
        if_pos h4]
      rfl
    rw [List.find?_cons_of_neg _ (show ¬line_won [c0, c1, c2, c3, c4, c5, c6, c7, c8] ((0 : Nat), (3 : Nat), (6 : Nat)) = true from h4)]
    by_cases h5 : (c1 != Player.None && c1 == c4 && c1 == c7) = true
    · rw [List.find?_cons_of_pos _ (show line_won [c0, c1, c2, c3, c4, c5, c6, c7, c8] ((1 : Nat), (4 : Nat), (7 : Nat)) = true from h5), hgr, if_neg hemp, if_neg h1, if_neg h2, if_neg h3,
        if_neg h4, if_pos h5]
      rfl
    rw [List.find?_cons_of_neg _ (show ¬line_won [c0, c1, c2, c3, c4, c5, c6, c7, c8] ((1 : Nat), (4 : Nat), (7 : Nat)) = true from h5)]
    by_cases h6 : (c2 != Player.None && c2 == c5 && c2 == c8) = true
    · rw [List.find?_cons_of_pos _ (show line_won [c0, c1, c2, c3, c4, c5, c6, c7, c8] ((2 : Nat), (5 : Nat), (8 : Nat)) = true from h6), hgr, if_neg hemp, if_neg h1, if_neg h2, if_neg h3,
        if_neg h4, if_neg h5, if_pos h6]
      rfl
    rw [List.find?_cons_of_neg _ (show ¬line_won [c0, c1, c2, c3, c4, c5, c6, c7, c8] ((2 : Nat), (5 : Nat), (8 : Nat)) = true from h6)]
    by_cases h7 : (c0 != Player.None && c0 == c4 && c0 == c8) = true
    · rw [List.find?_cons_of_pos _ (show line_won [c0, c1, c2, c3, c4, c5, c6, c7, c8] ((0 : Nat), (4 : Nat), (8 : Nat)) = true from h7), hgr, if_neg hemp, if_neg h1, if_neg h2, if_neg h3,
        if_neg h4, if_neg h5, if_neg h6, if_pos h7]
      rfl
    rw [List.find?_cons_of_neg _ (show ¬line_won [c0, c1, c2, c3, c4, c5, c6, c7, c8] ((0 : Nat), (4 : Nat), (8 : Nat)) = true from h7)]
    by_cases h8 : (c2 != Player.None && c2 == c4 && c2 == c6) = true
    · rw [List.find?_cons_of_pos _ (show line_won [c0, c1, c2, c3, c4, c5, c6, c7, c8] ((2 : Nat), (4 : Nat), (6 : Nat)) = true from h8), hgr, if_neg hemp, if_neg h1, if_neg h2, if_neg h3,
        if_neg h4, if_neg h5, if_neg h6, if_neg h7, if_pos h8]
      rfl
    rw [List.find?_cons_of_neg _ (show ¬line_won [c0, c1, c2, c3, c4, c5, c6, c7, c8] ((2 : Nat), (4 : Nat), (6 : Nat)) = true from h8)]
    rw [hgr, if_neg hemp, if_neg h1, if_neg h2, if_neg h3, if_neg h4, if_neg h5, if_neg h6,
      if_neg h7, if_neg h8]
    rfl

lemma res9_eq (board : Board) (hlen : board.length = 9) :
    res9 board = get_game_result board := by
  obtain ⟨c0, c1, c2, c3, c4, c5, c6, c7, c8, rfl⟩ := exists_nine board hlen
  by_cases hemp : is_empty [c0, c1, c2, c3, c4, c5, c6, c7, c8] = true
  · have hall := (is_empty_iff_all _).mp hemp
    have e0 : c0 = Player.None := hall c0 (by simp)
    have e1 : c1 = Player.None := hall c1 (by simp)
    have e2 : c2 = Player.None := hall c2 (by simp)
    have e3 : c3 = Player.None := hall c3 (by simp)
    have e4 : c4 = Player.None := hall c4 (by simp)
    have e5 : c5 = Player.None := hall c5 (by simp)
    have e6 : c6 = Player.None := hall c6 (by simp)
    have e7 : c7 = Player.None := hall c7 (by simp)
    have e8 : c8 = Player.None := hall c8 (by simp)
    subst e0 e1 e2 e3 e4 e5 e6 e7 e8
    decide
  · have hgr : get_game_result [c0, c1, c2, c3, c4, c5, c6, c7, c8] =
        (if is_empty [c0, c1, c2, c3, c4, c5, c6, c7, c8] then GameResult.Playing
         else if c0 != Player.None && c0 == c1 && c0 == c2 then GameResult.Win c0
         else if c3 != Player.None && c3 == c4 && c3 == c5 then GameResult.Win c3
         else if c6 != Player.None && c6 == c7 && c6 == c8 then GameResult.Win c6
         else if c0 != Player.None && c0 == c3 && c0 == c6 then GameResult.Win c0
         else if c1 != Player.None && c1 == c4 && c1 == c7 then GameResult.Win c1
         else if c2 != Player.None && c2 == c5 && c2 == c8 then GameResult.Win c2
         else if c0 != Player.None && c0 == c4 && c0 == c8 then GameResult.Win c0
         else if c2 != Player.None && c2 == c4 && c2 == c6 then GameResult.Win c2
         else if is_full [c0, c1, c2, c3, c4, c5, c6, c7, c8] then GameResult.Draw
         else GameResult.Playing) := rfl
    have hr9 : res9 [c0, c1, c2, c3, c4, c5, c6, c7, c8] =
        (if c0 != Player.None && c0 == c1 && c0 == c2 then GameResult.Win c0
         else if c3 != Player.None && c3 == c4 && c3 == c5 then GameResult.Win c3
         else if c6 != Player.None && c6 == c7 && c6 == c8 then GameResult.Win c6
         else if c0 != Player.None && c0 == c3 && c0 == c6 then GameResult.Win c0
         else if c1 != Player.None && c1 == c4 && c1 == c7 then GameResult.Win c1
         else if c2 != Player.None && c2 == c5 && c2 == c8 then GameResult.Win c2
         else if c0 != Player.None && c0 == c4 && c0 == c8 then GameResult.Win c0
         else if c2 != Player.None && c2 == c4 && c2 == c6 then GameResult.Win c2
         else if [c0, c1, c2, c3, c4, c5, c6, c7, c8].all (fun c => c != Player.None) then
           GameResult.Draw
         else GameResult.Playing) := rfl
    rw [hgr, hr9, if_neg hemp, is_full_eq_all]

lemma classify_win_line (board : Board) (hlen : board.length = 9) (l : Nat × Nat × Nat)
    (hfind : lines.find? (line_won board) = some l) :
    get_game_result board = GameResult.Win (board.getD l.1 Player.None) := by
  rw [classify_eq board hlen, hfind]

lemma classify_no_line (board : Board) (hlen : board.length = 9)
    (hfind : lines.find? (line_won board) = Option.none) :
    get_game_result board =
      (if is_full board then GameResult.Draw else GameResult.Playing) := by
  rw [classify_eq board hlen, hfind]

lemma draw_is_full (board : Board) (hlen : board.length = 9)
    (h : get_game_result board = GameResult.Draw) : is_full board = true := by
  rw [classify_eq board hlen] at h
  rcases hf : lines.find? (line_won board) with _ | l
  · rw [hf] at h
    by_cases hfull : is_full board = true
    · exact hfull
    · rw [if_neg (by simpa using hfull)] at h
      exact absurd h (by simp)
  · rw [hf] at h
    exact absurd h (by simp)

lemma win_ne_none (board : Board) (hlen : board.length = 9) (p : Player)
    (h : get_game_result board = GameResult.Win p) : p ≠ Player.None := by
  rw [classify_eq board hlen] at h
  rcases hf : lines.find? (line_won board) with _ | l
  · rw [hf] at h
    by_cases hfull : is_full board = true
    · rw [if_pos hfull] at h
      exact absurd h (by simp)
    · rw [if_neg (by simpa using hfull)] at h
      exact absurd h (by simp)
  · rw [hf] at h
    have hp : board.getD l.1 Player.None = p := by
      simpa using h
    exact hp ▸ line_won_fst (List.find?_some hf)

lemma playing_not_full (board : Board) (hlen : board.length = 9)
    (h : get_game_result board = GameResult.Playing) : is_full board = false := by
  rw [classify_eq board hlen] at h
  rcases hf : lines.find? (line_won board) with _ | l
  · rw [hf] at h
    by_cases hfull : is_full board = true
    · rw [if_pos hfull] at h
      exact absurd h (by simp)
    · simpa using hfull
  · rw [hf] at h
    exact absurd h (by simp)

lemma full_not_playing (board : Board) (hlen : board.length = 9)
    (h : is_full board = true) : get_game_result board ≠ GameResult.Playing := by
  intro hp
  rw [playing_not_full board hlen hp] at h
  exact Bool.false_ne_true h

lemma playing_avail_ne (board : Board) (hlen : board.length = 9)
    (h : get_game_result board = GameResult.Playing) :
    get_available_moves board ≠ [] := by
  intro hnil
  have hfull := (avail_nil_iff board).mp hnil
  rw [playing_not_full board hlen h] at hfull
  exact Bool.false_ne_true hfull

/-! ### Lemmas about `List.set` -/

lemma getD_set_self : ∀ (l : Board) (i : Nat) (p : Player), i < l.length →
    (l.set i p).getD i Player.None = p := by
  intro l
  induction l with
  | nil => intro i p h; simp at h
  | cons c l ih =>
    intro i p h
    cases i with
    | zero => rfl
    | succ i => exact ih i p (by simpa using h)

lemma getD_set_ne : ∀ (l : Board) (i j : Nat) (p : Player), i ≠ j →
    (l.set i p).getD j Player.None = l.getD j Player.None := by
  intro l
  induction l with
  | nil => intro i j p _; simp [List.set]
  | cons c l ih =>
    intro i j p hij
    cases i with
    | zero =>
      cases j with
      | zero => exact absurd rfl hij
      | succ j => rfl
    | succ i =>
      cases j with
      | zero => rfl
      | succ j => exact ih i j p (by omega)

lemma noneCount_set : ∀ (l : Board) (i : Nat) (p : Player),
    l.getD i Player.None = Player.None → i < l.length → p ≠ Player.None →
    noneCount l = noneCount (l.set i p) + 1 := by
  intro l
  induction l with
  | nil => intro i p _ h; simp at h
  | cons c l ih =>
    intro i p hg hi hp
    cases i with
    | zero =>
      have hc : c = Player.None := hg
      simp [noneCount, List.countP_cons, hc, hp]
    | succ i =>
      have := ih i p (by simpa using hg) (by simpa using hi) hp
      simp only [noneCount, List.set, List.countP_cons] at this ⊢
      omega

/-! ### Folding `max` and `min` over move lists -/

lemma foldl_max_spec (f : Nat → Int) : ∀ (L : List Nat) (b0 : Int),
    b0 ≤ L.foldl (fun b i => max b (f i)) b0 ∧
    (∀ i ∈ L, f i ≤ L.foldl (fun b i => max b (f i)) b0) ∧
    (L.foldl (fun b i => max b (f i)) b0 = b0 ∨
      ∃ i ∈ L, L.foldl (fun b i => max b (f i)) b0 = f i) := by
  intro L
  induction L with
  | nil => intro b0; simp
  | cons j L ih =>
    intro b0
    obtain ⟨h1, h2, h3⟩ := ih (max b0 (f j))
    simp only [List.foldl_cons]
    refine ⟨le_trans (le_max_left _ _) h1, ?_, ?_⟩
    · intro i hi
      rcases List.mem_cons.mp hi with rfl | hi
      · exact le_trans (le_max_right _ _) h1
      · exact h2 i hi
    · rcases h3 with h | ⟨i, hi, h⟩
      · rcases le_total (f j) b0 with hle | hle
        · exact Or.inl (h.trans (max_eq_left hle))
        · exact Or.inr ⟨j, List.mem_cons_self j L, h.trans (max_eq_right hle)⟩
      · exact Or.inr ⟨i, List.mem_cons_of_mem _ hi, h⟩

lemma foldl_min_spec (f : Nat → Int) : ∀ (L : List Nat) (b0 : Int),
    L.foldl (fun b i => min b (f i)) b0 ≤ b0 ∧
    (∀ i ∈ L, L.foldl (fun b i => min b (f i)) b0 ≤ f i) ∧
    (L.foldl (fun b i => min b (f i)) b0 = b0 ∨
      ∃ i ∈ L, L.foldl (fun b i => min b (f i)) b0 = f i) := by
  intro L
  induction L with
  | nil => intro b0; simp
  | cons j L ih =>
    intro b0
    obtain ⟨h1, h2, h3⟩ := ih (min b0 (f j))
    simp only [List.foldl_cons]
    refine ⟨le_trans h1 (min_le_left _ _), ?_, ?_⟩
    · intro i hi
      rcases List.mem_cons.mp hi with rfl | hi
      · exact le_trans h1 (min_le_right _ _)
      · exact h2 i hi
    · rcases h3 with h | ⟨i, hi, h⟩
      · rcases le_total b0 (f j) with hle | hle
        · exact Or.inl (h.trans (min_eq_left hle))
        · exact Or.inr ⟨j, List.mem_cons_self j L, h.trans (min_eq_right hle)⟩
      · exact Or.inr ⟨i, List.mem_cons_of_mem _ hi, h⟩

lemma foldl_max_nonneg_iff (f : Nat → Int) (L : List Nat) (b0 : Int) :
    0 ≤ L.foldl (fun b i => max b (f i)) b0 ↔ (0 ≤ b0 ∨ ∃ i ∈ L, 0 ≤ f i) := by
  obtain ⟨h1, h2, h3⟩ := foldl_max_spec f L b0
  constructor
  · intro h
    rcases h3 with he | ⟨i, hi, he⟩
    · rw [he] at h
      exact Or.inl h
    · rw [he] at h
      exact Or.inr ⟨i, hi, h⟩
  · rintro (h | ⟨i, hi, h⟩)
    · exact le_trans h h1
    · exact le_trans h (h2 i hi)

lemma foldl_min_nonneg_iff (f : Nat → Int) (L : List Nat) (b0 : Int) :
    0 ≤ L.foldl (fun b i => min b (f i)) b0 ↔ (0 ≤ b0 ∧ ∀ i ∈ L, 0 ≤ f i) := by
  obtain ⟨h1, h2, h3⟩ := foldl_min_spec f L b0
  constructor
  · intro h
    exact ⟨le_trans h h1, fun i hi => le_trans h (h2 i hi)⟩
  · rintro ⟨hb, hall⟩
    rcases h3 with he | ⟨i, hi, he⟩
    · rw [he]
      exact hb
    · rw [he]
      exact hall i hi

/-! ### The search at a terminal board, and at non-root depths -/

/-- The heuristic value returned by the terminal branch of the search. -/
def terminal_score (board : Board) (player : Player) (depth : Int) : Int :=
  if get_game_result board = GameResult.Win player then 100 - depth
  else if get_game_result board = GameResult.Win player.get_opponent then -100 + depth
  else 0

lemma gbm_terminal_cond (ch : List Int → Int) (fuel : Nat) (board : Board) (player : Player)
    (x : Bool) (depth : Int) (m : NodesMap)
    (h : (get_game_result board != GameResult.Playing || depth == (-1 : Int)) = true) :
    get_best_move ch (fuel + 1) board player x depth m =
      some (terminal_score board player depth, m) := by
  simp only [get_best_move]
  rw [if_pos h]
  unfold terminal_score
  by_cases h1 : get_game_result board = GameResult.Win player
  · rw [if_pos (show (get_game_result board == GameResult.Win player) = true by simp [h1]),
      if_pos h1]
  · rw [if_neg (show ¬(get_game_result board == GameResult.Win player) = true by simp [h1]),
      if_neg h1]
    by_cases h2 : get_game_result board = GameResult.Win player.get_opponent
    · rw [if_pos (show (get_game_result board == GameResult.Win player.get_opponent) = true by
        simp [h2]), if_pos h2]
    · rw [if_neg (show ¬(get_game_result board == GameResult.Win player.get_opponent) = true by
        simp [h2]), if_neg h2]

lemma mm_terminal_cond (fuel : Nat) (board : Board) (player : Player)
    (x : Bool) (depth : Int)
    (h : (get_game_result board != GameResult.Playing || depth == (-1 : Int)) = true) :
    mm (fuel + 1) board player x depth = terminal_score board player depth := by
  simp only [mm]
  rw [if_pos h]
  unfold terminal_score
  by_cases h1 : get_game_result board = GameResult.Win player
  · rw [if_pos (show (get_game_result board == GameResult.Win player) = true by simp [h1]),
      if_pos h1]
  · rw [if_neg (show ¬(get_game_result board == GameResult.Win player) = true by simp [h1]),
      if_neg h1]
    by_cases h2 : get_game_result board = GameResult.Win player.get_opponent
    · rw [if_pos (show (get_game_result board == GameResult.Win player.get_opponent) = true by
        simp [h2]), if_pos h2]
    · rw [if_neg (show ¬(get_game_result board == GameResult.Win player.get_opponent) = true by
        simp [h2]), if_neg h2]

lemma noneCount_child (board : Board) (mover : Player) (i : Nat)
    (hi : i ∈ get_available_moves board) (hm : mover ≠ Player.None) :
    noneCount board = noneCount (child_board board mover i) + 1 := by
  obtain ⟨hlt, hg⟩ := (avail_mem board i).mp hi
  exact noneCount_set board i mover hg hlt hm

lemma gbm_loop_pure (depth : Int) (hd : depth ≠ 0)
    (childCall : Board → NodesMap → Option (Int × NodesMap))
    (val : Board → Int) (mover : Player) (board : Board) (maximizing : Bool) :
    ∀ (L : List Nat) (best : Int) (m : NodesMap),
      (∀ i ∈ L, ∀ m2 : NodesMap, childCall (child_board board mover i) m2 =
        some (val (child_board board mover i), m2)) →
      gbm_loop depth childCall mover board maximizing L best m =
        some (L.foldl
          (fun b i => if maximizing then max b (val (child_board board mover i))
            else min b (val (child_board board mover i))) best, m) := by
  intro L
  induction L with
  | nil => intro best m _; rfl
  | cons i L ih =>
    intro best m hchild
    have hd0 : (depth == (0 : Int)) = false := by simpa using hd
    simp only [gbm_loop]
    rw [hchild i (by simp) m]
    simp only [hd0, Bool.false_eq_true, if_false, List.foldl_cons]
    exact ih _ _ (fun j hj m2 => hchild j (by simp [hj]) m2)

lemma mm_max (fuel : Nat) (board : Board) (player : Player) (depth : Int)
    (h : (get_game_result board != GameResult.Playing || depth == (-1 : Int)) = false) :
    mm (fuel + 1) board player true depth =
      (get_available_moves board).foldl
        (fun best index => max best (mm fuel (child_board board player index) player false (depth + 1)))
        (-100) := by
  simp only [mm]
  rw [if_neg (by simp [h])]
  simp

lemma mm_min (fuel : Nat) (board : Board) (player : Player) (depth : Int)
    (h : (get_game_result board != GameResult.Playing || depth == (-1 : Int)) = false) :
    mm (fuel + 1) board player false depth =
      (get_available_moves board).foldl
        (fun best index =>
          min best (mm fuel (child_board board player.get_opponent index) player true (depth + 1)))
        100 := by
  simp only [mm]
  rw [if_neg (by simp [h])]
  simp

lemma gbm_max (ch : List Int → Int) (fuel : Nat) (board : Board) (player : Player)
    (depth : Int) (m : NodesMap)
    (h : (get_game_result board != GameResult.Playing || depth == (-1 : Int)) = false) :
    get_best_move ch (fuel + 1) board player true depth m =
      (match gbm_loop depth (fun b2 m2 => get_best_move ch fuel b2 player false (depth + 1) m2)
          player board true (get_available_moves board) (-100) m with
       | Option.none => Option.none
       | some (best, m2) =>
         if depth == (0 : Int) then finish_root ch best m2 else some (best, m2)) := by
  simp only [get_best_move]
  rw [if_neg (by simp [h])]
  simp

lemma gbm_min (ch : List Int → Int) (fuel : Nat) (board : Board) (player : Player)
    (depth : Int) (m : NodesMap)
    (h : (get_game_result board != GameResult.Playing || depth == (-1 : Int)) = false) :
    get_best_move ch (fuel + 1) board player false depth m =
      (match gbm_loop depth (fun b2 m2 => get_best_move ch fuel b2 player true (depth + 1) m2)
          player.get_opponent board false (get_available_moves board) 100 m with
       | Option.none => Option.none
       | some (best, m2) =>
         if depth == (0 : Int) then finish_root ch best m2 else some (best, m2)) := by
  simp only [get_best_move]
  rw [if_neg (by simp [h])]
  simp

lemma gbm_nonroot : ∀ (fuel : Nat) (board : Board) (player : Player) (x : Bool)
    (depth : Int) (m : NodesMap) (ch : List Int → Int),
    noneCount board < fuel → player ≠ Player.None → depth ≠ 0 →
    get_best_move ch fuel board player x depth m = some (mm fuel board player x depth, m) := by
  intro fuel
  induction fuel with
  | zero => intro board player x depth m ch hf; omega
  | succ fuel ih =>
    intro board player x depth m ch hf hp hd
    by_cases hterm : (get_game_result board != GameResult.Playing || depth == (-1 : Int)) = true
    · rw [gbm_terminal_cond ch fuel board player x depth m hterm,
        mm_terminal_cond fuel board player x depth hterm]
    · have hterm2 : (get_game_result board != GameResult.Playing || depth == (-1 : Int)) = false :=
        Bool.eq_false_iff.mpr hterm
      have hdm1 : depth ≠ (-1 : Int) := by
        rcases Bool.or_eq_false_iff.mp hterm2 with ⟨_, h2⟩
        simpa using h2
      have hd1 : depth + 1 ≠ 0 := by
        intro hc
        exact hdm1 (by omega)
      have hd0 : (depth == (0 : Int)) = false := by simpa using hd
      cases x
      · rw [gbm_min ch fuel board player depth m hterm2, mm_min fuel board player depth hterm2]
        rw [gbm_loop_pure depth hd
          (fun b2 m2 => get_best_move ch fuel b2 player true (depth + 1) m2)
          (fun b2 => mm fuel b2 player true (depth + 1)) player.get_opponent board false
          (get_available_moves board) 100 m
          (fun i hi m2 => ih (child_board board player.get_opponent i) player true (depth + 1) m2 ch
            (by have := noneCount_child board player.get_opponent i hi (opp_ne_none hp); omega)
            hp hd1)]
        simp [hd0]
      · rw [gbm_max ch fuel board player depth m hterm2, mm_max fuel board player depth hterm2]
        rw [gbm_loop_pure depth hd
          (fun b2 m2 => get_best_move ch fuel b2 player false (depth + 1) m2)
          (fun b2 => mm fuel b2 player false (depth + 1)) player board true
          (get_available_moves board) (-100) m
          (fun i hi m2 => ih (child_board board player i) player false (depth + 1) m2 ch
            (by have := noneCount_child board player i hi hp; omega)
            hp hd1)]
        simp [hd0]
/-! ### Bounds and sign coherence for the minimax value -/

lemma mm_bounds : ∀ (fuel : Nat) (board : Board) (player : Player) (x : Bool) (depth : Int),
    0 ≤ depth → depth + fuel ≤ 200 →
    -100 ≤ mm fuel board player x depth ∧ mm fuel board player x depth ≤ 100 := by
  intro fuel
  induction fuel with
  | zero =>
    intro board player x depth _ _
    have h0 : mm 0 board player x depth = 0 := rfl
    rw [h0]
    omega
  | succ fuel ih =>
    intro board player x depth hd hsum
    by_cases hterm : (get_game_result board != GameResult.Playing || depth == (-1 : Int)) = true
    · rw [mm_terminal_cond fuel board player x depth hterm]
      unfold terminal_score
      split_ifs <;> constructor <;> omega
    · have hterm2 : (get_game_result board != GameResult.Playing || depth == (-1 : Int)) = false :=
        Bool.eq_false_iff.mpr hterm
      cases x
      · rw [mm_min fuel board player depth hterm2]
        obtain ⟨g1, g2, g3⟩ := foldl_min_spec
          (fun i => mm fuel (child_board board player.get_opponent i) player true (depth + 1))
          (get_available_moves board) 100
        constructor
        · rcases g3 with he | ⟨i, hi, he⟩
          · rw [he]; norm_num
          · rw [he]
            exact (ih _ _ _ _ (by omega) (by omega)).1
        · exact le_trans g1 (by norm_num)
      · rw [mm_max fuel board player depth hterm2]
        obtain ⟨g1, g2, g3⟩ := foldl_max_spec
          (fun i => mm fuel (child_board board player i) player false (depth + 1))
          (get_available_moves board) (-100)
        constructor
        · exact le_trans (by norm_num) g1
        · rcases g3 with he | ⟨i, hi, he⟩
          · rw [he]; norm_num
          · rw [he]
            exact (ih _ _ _ _ (by omega) (by omega)).2

lemma length_child (board : Board) (mover : Player) (i : Nat) :
    (child_board board mover i).length = board.length := by
  simp [child_board]

lemma mm_sign : ∀ (fuel fuel2 : Nat) (board : Board) (player : Player) (x : Bool) (d d2 : Int),
    board.length = 9 → player ≠ Player.None →
    0 ≤ d → d + fuel ≤ 100 → 0 ≤ d2 → d2 + fuel2 ≤ 100 →
    noneCount board < fuel → noneCount board < fuel2 →
    (0 ≤ mm fuel board player x d ↔ 0 ≤ mm fuel2 board player x d2) := by
  intro fuel
  induction fuel with
  | zero => intro fuel2 board player x d d2 _ _ _ _ _ _ hf _; omega
  | succ fuel ih =>
    intro fuel2 board player x d d2 hlen hp hd hsum hd2 hsum2 hf hf2
    cases fuel2 with
    | zero => omega
    | succ fuel2 =>
      by_cases hres : get_game_result board = GameResult.Playing
      · have hc1 : (get_game_result board != GameResult.Playing || d == (-1 : Int)) = false := by
          simp [hres]
          omega
        have hc2 : (get_game_result board != GameResult.Playing || d2 == (-1 : Int)) = false := by
          simp [hres]
          omega
        cases x
        · rw [mm_min fuel board player d hc1, mm_min fuel2 board player d2 hc2,
            foldl_min_nonneg_iff, foldl_min_nonneg_iff]
          constructor
          · rintro ⟨_, hall⟩
            refine ⟨by norm_num, fun i hi => ?_⟩
            exact (ih fuel2 (child_board board player.get_opponent i) player true (d + 1) (d2 + 1)
              (by rw [length_child]; exact hlen) hp (by omega) (by omega) (by omega) (by omega)
              (by have := noneCount_child board player.get_opponent i hi (opp_ne_none hp); omega)
              (by have := noneCount_child board player.get_opponent i hi (opp_ne_none hp); omega)).mp
              (hall i hi)
          · rintro ⟨_, hall⟩
            refine ⟨by norm_num, fun i hi => ?_⟩
            exact (ih fuel2 (child_board board player.get_opponent i) player true (d + 1) (d2 + 1)
              (by rw [length_child]; exact hlen) hp (by omega) (by omega) (by omega) (by omega)
              (by have := noneCount_child board player.get_opponent i hi (opp_ne_none hp); omega)
              (by have := noneCount_child board player.get_opponent i hi (opp_ne_none hp); omega)).mpr
              (hall i hi)
        · rw [mm_max fuel board player d hc1, mm_max fuel2 board player d2 hc2,
            foldl_max_nonneg_iff, foldl_max_nonneg_iff]
          constructor
          · rintro (hb | ⟨i, hi, hval⟩)
            · omega
            · refine Or.inr ⟨i, hi, ?_⟩
              exact (ih fuel2 (child_board board player i) player false (d + 1) (d2 + 1)
                (by rw [length_child]; exact hlen) hp (by omega) (by omega) (by omega) (by omega)
                (by have := noneCount_child board player i hi hp; omega)
                (by have := noneCount_child board player i hi hp; omega)).mp hval
          · rintro (hb | ⟨i, hi, hval⟩)
            · omega
            · refine Or.inr ⟨i, hi, ?_⟩
              exact (ih fuel2 (child_board board player i) player false (d + 1) (d2 + 1)
                (by rw [length_child]; exact hlen) hp (by omega) (by omega) (by omega) (by omega)
                (by have := noneCount_child board player i hi hp; omega)
                (by have := noneCount_child board player i hi hp; omega)).mpr hval
      · have hc1 : (get_game_result board != GameResult.Playing || d == (-1 : Int)) = true := by
          simp [hres]
        have hc2 : (get_game_result board != GameResult.Playing || d2 == (-1 : Int)) = true := by
          simp [hres]
        rw [mm_terminal_cond fuel board player x d hc1,
          mm_terminal_cond fuel2 board player x d2 hc2]
        unfold terminal_score
        split_ifs <;> omega

/-! ### Soundness of the game-tree certificate -/

lemma chk_sound : ∀ (n : Nat) (board : Board) (cToMove : Bool) (C : Player),
    board.length = 9 → C ≠ Player.None →
    chk C n board cToMove = true →
    ∀ (fuel : Nat) (d : Int), 0 ≤ d → d + fuel ≤ 100 → noneCount board < fuel →
      0 ≤ mm fuel board C cToMove d := by
  intro n
  induction n with
  | zero =>
    intro board cToMove C _ _ hchk
    simp [chk] at hchk
  | succ n ih =>
    intro board cToMove C hlen hC hchk fuel d hd hsum hf
    cases fuel with
    | zero => omega
    | succ fuel =>
      simp only [chk] at hchk
      rw [res9_eq board hlen] at hchk
      by_cases hres : get_game_result board = GameResult.Playing
      · rw [if_neg (by simp [hres])] at hchk
        have hc1 : (get_game_result board != GameResult.Playing || d == (-1 : Int)) = false := by
          simp [hres]
          omega
        cases cToMove
        · rw [if_neg (by simp)] at hchk
          rw [List.all_eq_true] at hchk
          rw [mm_min fuel board C d hc1, foldl_min_nonneg_iff]
          refine ⟨by norm_num, fun i hi => ?_⟩
          exact ih (board.set i C.get_opponent) true C
            (by rw [show board.set i C.get_opponent = child_board board C.get_opponent i from rfl,
              length_child]; exact hlen)
            hC (hchk i hi) fuel (d + 1) (by omega) (by omega)
            (by have h1 := noneCount_child board C.get_opponent i hi (opp_ne_none hC)
                have h2 : noneCount (List.set board i C.get_opponent) =
                    noneCount (child_board board C.get_opponent i) := rfl
                omega)
        · rw [if_pos (by simp)] at hchk
          rw [Bool.and_eq_true] at hchk
          obtain ⟨hcont, hrec⟩ := hchk
          have hjmem : comp_strategy C board ∈ get_available_moves board := by
            simpa [List.contains] using hcont
          rw [mm_max fuel board C d hc1]
          obtain ⟨g1, g2, g3⟩ := foldl_max_spec
            (fun i => mm fuel (child_board board C i) C false (d + 1))
            (get_available_moves board) (-100)
          refine le_trans ?_ (g2 (comp_strategy C board) hjmem)
          exact ih (board.set (comp_strategy C board) C) false C
            (by rw [show board.set (comp_strategy C board) C =
                child_board board C (comp_strategy C board) from rfl, length_child]; exact hlen)
            hC hrec fuel (d + 1) (by omega) (by omega)
            (by have h1 := noneCount_child board C (comp_strategy C board) hjmem hC
                have h2 : noneCount (List.set board (comp_strategy C board) C) =
                    noneCount (child_board board C (comp_strategy C board)) := rfl
                omega)
      · rw [if_pos (by simp [hres])] at hchk
        have hc1 : (get_game_result board != GameResult.Playing || d == (-1 : Int)) = true := by
          simp [hres]
        rw [mm_terminal_cond fuel board C cToMove d hc1]
        unfold terminal_score
        have hwd : get_game_result board = GameResult.Win C ∨
            get_game_result board = GameResult.Draw := by
          simpa using hchk
        rcases hwd with hw2 | hd2
        · rw [if_pos hw2]
          omega
        · rw [if_neg (by simp [hd2]), if_neg (by simp [hd2])]

/-! ### The root call: scratch-map invariant and returned move -/

lemma sel_append_one_self (board : Board) (player : Player) (P : List Nat) (i : Nat) (k : Int)
    (h : child_score board player i = k) :
    sel board player (P ++ [i]) k = sel board player P k ++ [(i : Int)] := by
  simp [sel, List.filter_append, h]

lemma sel_append_one_ne (board : Board) (player : Player) (P : List Nat) (i : Nat) (k : Int)
    (h : child_score board player i ≠ k) :
    sel board player (P ++ [i]) k = sel board player P k := by
  simp [sel, List.filter_append, h]

lemma mem_sel (board : Board) (player : Player) (P : List Nat) (k : Int) (r : Int)
    (h : r ∈ sel board player P k) :
    ∃ j ∈ P, child_score board player j = k ∧ (j : Int) = r := by
  unfold sel at h
  rcases List.mem_map.mp h with ⟨j, hjf, rfl⟩
  rcases List.mem_filter.mp hjf with ⟨hj, hcs⟩
  exact ⟨j, hj, by simpa using hcs, rfl⟩

lemma sel_mem_self (board : Board) (player : Player) (P : List Nat) (i : Nat)
    (hi : i ∈ P) : (i : Int) ∈ sel board player P (child_score board player i) := by
  unfold sel
  exact List.mem_map.mpr ⟨i, List.mem_filter.mpr ⟨hi, by simp⟩, rfl⟩

lemma finish_root_eq (ch : List Int → Int) (best : Int) (m : NodesMap) (moves : List Int)
    (h : map_get m best = some moves) :
    finish_root ch best m =
      (if moves.length > 1 then some (ch moves, m)
       else
         match moves.head? with
         | some v => some (v, m)
         | Option.none => Option.none) := by
  unfold finish_root
  rw [h]

lemma gbm_loop_root (board : Board) (player : Player)
    (childCall : Board → NodesMap → Option (Int × NodesMap))
    (hchild : ∀ i ∈ get_available_moves board, ∀ m2 : NodesMap,
      childCall (child_board board player i) m2 = some (child_score board player i, m2)) :
    ∀ (L P : List Nat) (b0 : Int) (m0 : NodesMap),
      (∀ i ∈ L, i ∈ get_available_moves board) →
      (∀ k : Int, map_get m0 k =
        if sel board player P k = [] then Option.none else some (sel board player P k)) →
      ∃ M : NodesMap,
        gbm_loop 0 childCall player board true L b0 m0 =
          some (L.foldl (fun b i => max b (child_score board player i)) b0, M) ∧
        ∀ k : Int, map_get M k =
          if sel board player (P ++ L) k = [] then Option.none
          else some (sel board player (P ++ L) k) := by
  intro L
  induction L with
  | nil =>
    intro P b0 m0 _ hm0
    exact ⟨m0, rfl, by simpa using hm0⟩
  | cons i L ih =>
    intro P b0 m0 hsub hm0
    simp only [gbm_loop]
    rw [hchild i (hsub i (by simp)) m0]
    have harm : (match map_get m0 (child_score board player i) with
        | some moves => moves ++ [(i : Int)]
        | Option.none => [(i : Int)]) =
        sel board player P (child_score board player i) ++ [(i : Int)] := by
      rw [hm0 (child_score board player i)]
      by_cases hsel : sel board player P (child_score board player i) = []
      · rw [if_pos hsel, hsel]
        rfl
      · rw [if_neg hsel]
    have hm1 : ∀ k : Int,
        map_get (map_insert m0 (child_score board player i)
          (sel board player P (child_score board player i) ++ [(i : Int)])) k =
        if sel board player (P ++ [i]) k = [] then Option.none
        else some (sel board player (P ++ [i]) k) := by
      intro k
      by_cases hk : k = child_score board player i
      · subst hk
        rw [map_get_insert_self,
          sel_append_one_self board player P i _ rfl]
        rw [if_neg (by simp)]
      · rw [map_get_insert_ne m0 (child_score board player i) k _ hk, hm0 k,
          sel_append_one_ne board player P i k (fun hc => hk hc.symm)]
    obtain ⟨M, hloop, hMinv⟩ := ih (P ++ [i]) (max b0 (child_score board player i))
      (map_insert m0 (child_score board player i)
        (sel board player P (child_score board player i) ++ [(i : Int)]))
      (fun j hj => hsub j (by simp [hj])) hm1
    refine ⟨M, ?_, ?_⟩
    · simp only [beq_self_eq_true, if_true, harm, List.foldl_cons]
      exact hloop
    · intro k
      rw [hMinv k]
      have hPL : (P ++ [i]) ++ L = P ++ i :: L := by simp
      rw [hPL]

lemma gbm_root (board : Board) (player : Player) (ch : List Int → Int)
    (hlen : board.length = 9)
    (hres : get_game_result board = GameResult.Playing)
    (hne : get_available_moves board ≠ [])
    (hp : player ≠ Player.None)
    (hch : ∀ l : List Int, l ≠ [] → ch l ∈ l) :
    ∃ (i : Nat) (M : NodesMap),
      get_best_move ch 10 board player true 0 [] = some ((i : Int), M) ∧
      i ∈ get_available_moves board ∧
      ∀ j ∈ get_available_moves board,
        child_score board player j ≤ child_score board player i := by
  have h10 : (10 : Nat) = 9 + 1 := rfl
  rw [h10]
  have hc : (get_game_result board != GameResult.Playing || (0 : Int) == (-1 : Int)) = false := by
    simp [hres]
  rw [gbm_max ch 9 board player 0 [] hc]
  have hchild : ∀ i ∈ get_available_moves board, ∀ m2 : NodesMap,
      (fun b2 m2 => get_best_move ch 9 b2 player false (0 + 1) m2)
        (child_board board player i) m2 = some (child_score board player i, m2) := by
    intro i hi m2
    have hnc : noneCount (child_board board player i) < 9 := by
      have h1 := noneCount_child board player i hi hp
      have h2 : noneCount board ≤ 9 := by
        rw [← hlen]
        exact noneCount_le_length board
      omega
    exact gbm_nonroot 9 (child_board board player i) player false (0 + 1) m2 ch hnc hp
      (by norm_num)
  obtain ⟨M, hloop, hMinv⟩ := gbm_loop_root board player
    (fun b2 m2 => get_best_move ch 9 b2 player false (0 + 1) m2) hchild
    (get_available_moves board) [] (-100) []
    (fun i hi => hi)
    (fun k => by simp [map_get, sel])
  rw [hloop]
  simp only [beq_self_eq_true, if_true]
  obtain ⟨g1, g2, g3⟩ := foldl_max_spec
    (fun i => child_score board player i) (get_available_moves board) (-100)
  set best := (get_available_moves board).foldl
    (fun b i => max b (child_score board player i)) (-100) with hbestdef
  have hbound : ∀ j ∈ get_available_moves board, -100 ≤ child_score board player j := by
    intro j hj
    exact (mm_bounds 9 (child_board board player j) player false 1 (by norm_num)
      (by norm_num)).1
  have hbest : ∃ i ∈ get_available_moves board, best = child_score board player i := by
    rcases g3 with he | ⟨i, hi, he⟩
    · obtain ⟨i0, L0, hL0⟩ := List.exists_cons_of_ne_nil hne
      have hmem : i0 ∈ get_available_moves board := by rw [hL0]; simp
      refine ⟨i0, hmem, ?_⟩
      have hle := g2 i0 hmem
      have hge := hbound i0 hmem
      omega
    · exact ⟨i, hi, he⟩
  obtain ⟨istar, histar, hbe⟩ := hbest
  have hselne : sel board player (get_available_moves board) best ≠ [] := by
    intro hnil
    have := sel_mem_self board player (get_available_moves board) istar histar
    rw [← hbe] at this
    rw [hnil] at this
    simp at this
  have hMbest := hMinv best
  rw [if_neg (by simpa using hselne)] at hMbest
  rw [finish_root_eq ch best M (sel board player (get_available_moves board) best)
    (by simpa using hMbest)]
  by_cases hlen1 : (sel board player (get_available_moves board) best).length > 1
  · rw [if_pos hlen1]
    have hchmem := hch _ hselne
    obtain ⟨j, hj, hcsj, hje⟩ :=
      mem_sel board player (get_available_moves board) best _ hchmem
    refine ⟨j, M, ?_, hj, ?_⟩
    · rw [hje]
    · intro j2 hj2
      rw [hcsj]
      exact g2 j2 hj2
  · rw [if_neg hlen1]
    rcases hsl : sel board player (get_available_moves board) best with _ | ⟨v, rest⟩
    · exact absurd hsl hselne
    · have hv : v ∈ sel board player (get_available_moves board) best := by
        rw [hsl]
        simp
      obtain ⟨j, hj, hcsj, hje⟩ :=
        mem_sel board player (get_available_moves board) best _ hv
      refine ⟨j, M, ?_, hj, ?_⟩
      · show some (v, M) = some ((j : Int), M)
        rw [hje]
      · intro j2 hj2
        rw [hcsj]
        exact g2 j2 hj2

/-! ### `play_as_computer`: the computer's turn -/

lemma int_to_usize_coe (j : Nat) (h : j < 9) : int_to_usize (j : Int) = j := by
  unfold int_to_usize
  omega

lemma play_full (ch : List Int → Int) (board : Board) (human : Player)
    (hfull : is_full board = true) :
    play_as_computer ch board human = some board := by
  unfold play_as_computer
  rw [if_pos hfull]

lemma play_eq (ch : List Int → Int) (board : Board) (human : Player)
    (hnf : is_full board = false) :
    play_as_computer ch board human =
      (match get_best_move ch 10 board human.get_opponent true 0 [] with
       | Option.none => Option.none
       | some (idx, _) =>
         if int_to_usize idx ≤ board.length then
           if int_to_usize idx < board.length then
             some (board.set (int_to_usize idx) human.get_opponent)
           else Option.none
         else some board) := by
  unfold play_as_computer
  rw [if_neg (by simp [hnf])]

lemma play_playing (ch : List Int → Int) (board : Board) (human : Player)
    (hlen : board.length = 9) (hres : get_game_result board = GameResult.Playing)
    (hh : human ≠ Player.None) (hch : ∀ l : List Int, l ≠ [] → ch l ∈ l) :
    ∃ j, j ∈ get_available_moves board ∧
      (∀ j2 ∈ get_available_moves board,
        child_score board human.get_opponent j2 ≤ child_score board human.get_opponent j) ∧
      play_as_computer ch board human = some (board.set j human.get_opponent) := by
  obtain ⟨j, M, hroot, hjmem, hjopt⟩ := gbm_root board human.get_opponent ch hlen hres
    (playing_avail_ne board hlen hres) (opp_ne_none hh) hch
  have hj9 : j < 9 := by
    have := (avail_mem board j).mp hjmem
    omega
  refine ⟨j, hjmem, hjopt, ?_⟩
  rw [play_eq ch board human (playing_not_full board hlen hres), hroot]
  show (if int_to_usize (j : Int) ≤ board.length then
      if int_to_usize (j : Int) < board.length then
        some (board.set (int_to_usize (j : Int)) human.get_opponent)
      else Option.none
    else some board) = some (board.set j human.get_opponent)
  rw [int_to_usize_coe j hj9, hlen]
  rw [if_pos (by omega), if_pos (by omega)]

lemma play_win_human (ch : List Int → Int) (board : Board) (human : Player)
    (hlen : board.length = 9) (hh : human ≠ Player.None)
    (hwin : get_game_result board = GameResult.Win human)
    (hnf : is_full board = false) :
    get_best_move ch 10 board human.get_opponent true 0 [] = some (-100, []) ∧
    play_as_computer ch board human = some board := by
  have hscore : terminal_score board human.get_opponent 0 = -100 := by
    unfold terminal_score
    rw [if_neg (by simp [hwin, GameResult.Win.injEq]; exact fun hc => opp_ne_self hh hc.symm),
      if_pos (by rw [opp_opp hh]; exact hwin)]
    norm_num
  have hroot : get_best_move ch 10 board human.get_opponent true 0 [] = some (-100, []) := by
    have h1 := gbm_terminal_cond ch 9 board human.get_opponent true 0 []
      (by simp [hwin])
    rw [hscore] at h1
    exact h1
  refine ⟨hroot, ?_⟩
  rw [play_eq ch board human hnf, hroot, hlen]
  show (if int_to_usize (-100) ≤ 9 then
      if int_to_usize (-100) < 9 then some (board.set (int_to_usize (-100)) human.get_opponent)
      else Option.none
    else some board) = some board
  rw [if_neg (by decide)]

lemma play_win_comp (ch : List Int → Int) (board : Board) (human : Player)
    (hlen : board.length = 9) (_hh : human ≠ Player.None)
    (hwin : get_game_result board = GameResult.Win human.get_opponent)
    (hnf : is_full board = false) :
    play_as_computer ch board human = some board := by
  have hscore : terminal_score board human.get_opponent 0 = 100 := by
    unfold terminal_score
    rw [if_pos hwin]
    norm_num
  have hroot : get_best_move ch 10 board human.get_opponent true 0 [] = some (100, []) := by
    have h1 := gbm_terminal_cond ch 9 board human.get_opponent true 0 []
      (by simp [hwin])
    rw [hscore] at h1
    exact h1
  rw [play_eq ch board human hnf, hroot, hlen]
  show (if int_to_usize 100 ≤ 9 then
      if int_to_usize 100 < 9 then some (board.set (int_to_usize 100) human.get_opponent)
      else Option.none
    else some board) = some board
  rw [if_neg (by decide)]

/-! ### The never-beaten invariant along reachable boards -/

lemma terminal_sign (board : Board) (player : Player) (d d2 : Int)
    (hd : 0 ≤ d) (hd2 : 0 ≤ d2) (hd9 : d ≤ 99) (hd29 : d2 ≤ 99)
    (h : 0 ≤ terminal_score board player d) : 0 ≤ terminal_score board player d2 := by
  unfold terminal_score at h ⊢
  split_ifs at h ⊢ <;> omega

lemma reachable_inv (human : Player) (hh : human ≠ Player.None)
    (hcert : chk human.get_opponent 10 get_empty_board false = true) :
    ∀ b : Board, Reachable human b →
      b.length = 9 ∧ 0 ≤ mm 10 b human.get_opponent false 0 := by
  intro b hr
  induction hr with
  | init =>
    refine ⟨by decide, ?_⟩
    exact chk_sound 10 get_empty_board false human.get_opponent (by decide) (opp_ne_none hh)
      hcert 10 0 (by norm_num) (by norm_num) (by decide)
  | step b b2 i ch hr hres hi9 hempty hch hplay ih =>
    obtain ⟨hlen, hval⟩ := ih
    have hCn : human.get_opponent ≠ Player.None := opp_ne_none hh
    have hlen2 : (b.set i human).length = 9 := by rw [List.length_set]; exact hlen
    have himem : i ∈ get_available_moves b := (avail_mem b i).mpr ⟨by omega, hempty⟩
    have hc0 : (get_game_result b != GameResult.Playing || (0 : Int) == (-1 : Int)) = false := by
      simp [hres]
    rw [show (10 : Nat) = 9 + 1 from rfl, mm_min 9 b human.get_opponent 0 hc0,
      foldl_min_nonneg_iff] at hval
    have hvchild0 := hval.2 i himem
    rw [opp_opp hh] at hvchild0
    have hvchild : 0 ≤ mm 9 (b.set i human) human.get_opponent true 1 := by
      simpa [child_board] using hvchild0
    have hncb : noneCount b ≤ 9 := by rw [← hlen]; exact noneCount_le_length b
    have hncb2 : noneCount b = noneCount (b.set i human) + 1 :=
      noneCount_set b i human hempty (by omega) hh
    by_cases hres2 : get_game_result (b.set i human) = GameResult.Playing
    · obtain ⟨j, hjmem, hjopt, hplay2⟩ := play_playing ch (b.set i human) human hlen2 hres2 hh hch
      rw [hplay2] at hplay
      have hb2 : b2 = (b.set i human).set j human.get_opponent := (Option.some.inj hplay).symm
      have hc1 : (get_game_result (b.set i human) != GameResult.Playing ||
          (1 : Int) == (-1 : Int)) = false := by simp [hres2]
      rw [show (9 : Nat) = 8 + 1 from rfl, mm_max 8 (b.set i human) human.get_opponent 1 hc1,
        foldl_max_nonneg_iff] at hvchild
      rcases hvchild with habs | ⟨jj, hjjmem, hjjval⟩
      · omega
      have hncjj := noneCount_child (b.set i human) human.get_opponent jj hjjmem hCn
      have hsgn1 := mm_sign 8 9 (child_board (b.set i human) human.get_opponent jj)
        human.get_opponent false 2 1 (by rw [length_child]; exact hlen2) hCn
        (by norm_num) (by norm_num) (by norm_num) (by norm_num) (by omega) (by omega)
      have hjj2 : 0 ≤ child_score (b.set i human) human.get_opponent jj := by
        unfold child_score
        exact hsgn1.mp hjjval
      have hjval : 0 ≤ child_score (b.set i human) human.get_opponent j :=
        le_trans hjj2 (hjopt jj hjjmem)
      have hncj := noneCount_child (b.set i human) human.get_opponent j hjmem hCn
      have hsgn2 := mm_sign 9 10 (child_board (b.set i human) human.get_opponent j)
        human.get_opponent false 1 0 (by rw [length_child]; exact hlen2) hCn
        (by norm_num) (by norm_num) (by norm_num) (by norm_num) (by omega) (by omega)
      constructor
      · rw [hb2, List.length_set]
        exact hlen2
      · rw [hb2]
        unfold child_score at hjval
        exact hsgn2.mp hjval
    · have hct : (get_game_result (b.set i human) != GameResult.Playing ||
          (1 : Int) == (-1 : Int)) = true := by simp [hres2]
      rw [show (9 : Nat) = 8 + 1 from rfl,
        mm_terminal_cond 8 (b.set i human) human.get_opponent true 1 hct] at hvchild
      by_cases hfull : is_full (b.set i human) = true
      · rw [play_full ch (b.set i human) human hfull] at hplay
        have hb2 : b2 = b.set i human := (Option.some.inj hplay).symm
        constructor
        · rw [hb2]; exact hlen2
        · rw [hb2, show (10 : Nat) = 9 + 1 from rfl,
            mm_terminal_cond 9 (b.set i human) human.get_opponent false 0 (by simp [hres2])]
          exact terminal_sign _ _ 1 0 (by norm_num) (by norm_num) (by norm_num) (by norm_num)
            hvchild
      · rcases hgr : get_game_result (b.set i human) with _ | p | _
        · exact absurd hgr hres2
        · have hpn : p ≠ Player.None := win_ne_none _ hlen2 p hgr
          have hpc : p = human ∨ p = human.get_opponent := by
            rcases player_cases p hpn with h1 | h1 <;>
              rcases player_cases human hh with h2 | h2 <;>
                simp [h1, h2, Player.get_opponent]
          rcases hpc with rfl | rfl
          · exfalso
            unfold terminal_score at hvchild
            rw [hgr] at hvchild
            have hne1 : ¬(GameResult.Win p = GameResult.Win p.get_opponent) := by
              simp only [GameResult.Win.injEq]
              exact fun hc => opp_ne_self hh hc.symm
            have heq2 : GameResult.Win p = GameResult.Win p.get_opponent.get_opponent := by
              rw [opp_opp hh]
            rw [if_neg hne1, if_pos heq2] at hvchild
            omega
          · rw [play_win_comp ch (b.set i human) human hlen2 hh hgr
              (by simpa using hfull)] at hplay
            have hb2 : b2 = b.set i human := (Option.some.inj hplay).symm
            constructor
            · rw [hb2]; exact hlen2
            · rw [hb2, show (10 : Nat) = 9 + 1 from rfl,
                mm_terminal_cond 9 (b.set i human) human.get_opponent false 0 (by simp [hgr])]
              unfold terminal_score
              rw [if_pos hgr]
              omega
        · exact absurd (draw_is_full _ hlen2 hgr) (by simpa using hfull)


/-! ### The exhaustive game-tree certificates -/

set_option maxRecDepth 100000 in
set_option maxHeartbeats 8000000 in
lemma chk_cert_X : chk Player.X 10 get_empty_board false = true := by decide

set_option maxRecDepth 100000 in
set_option maxHeartbeats 8000000 in
lemma chk_cert_O : chk Player.O 10 get_empty_board false = true := by decide
/-! ### Helper facts and concrete instances for the claims -/

lemma player_eq_or_opp (p human : Player) (hpn : p ≠ Player.None) (hh : human ≠ Player.None) :
    p = human ∨ p = human.get_opponent := by
  rcases player_cases p hpn with h1 | h1 <;> rcases player_cases human hh with h2 | h2 <;>
    simp [h1, h2, Player.get_opponent]

/-- A concrete deterministic tie-break oracle (always the first candidate),
standing in for `rand::thread_rng` in witnesses. -/
def ch0 : List Int → Int := fun l => l.headD 0

lemma ch0_mem : ∀ l : List Int, l ≠ [] → ch0 l ∈ l := by
  intro l hl
  cases l with
  | nil => exact absurd rfl hl
  | cons a l => simp [ch0]

/-- A finished drawn board (no line, full). -/
def drawBoard : Board :=
  [Player.X, Player.O, Player.X, Player.X, Player.O, Player.O, Player.O, Player.X, Player.X]

/-! ### The claims -/

/-- C1 (never beaten): with the human holding mark `human` (O or X) and the
computer answering every human move through `get_best_move` inside
`play_as_computer`, no board reachable in the app — for any sequence of
legal human moves and any random tie-break choices — is classified by
`get_game_result` as a win for the human's mark. -/
theorem claim_never_beaten (human : Player) (hh : human = Player.O ∨ human = Player.X)
    (b : Board) (hr : Reachable human b) :
    get_game_result b ≠ GameResult.Win human := by
  have hhn : human ≠ Player.None := by rcases hh with rfl | rfl <;> simp
  have hcert : chk human.get_opponent 10 get_empty_board false = true := by
    rcases hh with rfl | rfl
    · exact chk_cert_X
    · exact chk_cert_O
  obtain ⟨hlen, hval⟩ := reachable_inv human hhn hcert b hr
  intro hwin
  rw [show (10 : Nat) = 9 + 1 from rfl,
    mm_terminal_cond 9 b human.get_opponent false 0 (by simp [hwin])] at hval
  unfold terminal_score at hval
  rw [hwin] at hval
  have hne1 : ¬(GameResult.Win human = GameResult.Win human.get_opponent) := by
    simp only [GameResult.Win.injEq]
    exact fun hc => opp_ne_self hhn hc.symm
  have heq2 : GameResult.Win human = GameResult.Win human.get_opponent.get_opponent := by
    rw [opp_opp hhn]
  rw [if_neg hne1, if_pos heq2] at hval
  omega

/-- Witness for C1 at the initial (empty, reachable) board with the human
playing O. -/
theorem claim_never_beaten_witness :
    get_game_result get_empty_board ≠ GameResult.Win Player.O :=
  claim_never_beaten Player.O (Or.inl rfl) get_empty_board Reachable.init

/-- C2: on a 9-cell `Playing` board with an empty cell, for any tie-break
oracle that picks an element of its argument, the root search (`depth` 0,
maximizing, fresh map) returns an index of an `Empty` cell that is an
available move whose recursive minimax score is maximal among all
available moves. -/
theorem claim_best_move_valid_optimal (board : Board) (player : Player) (ch : List Int → Int)
    (hlen : board.length = 9)
    (hres : get_game_result board = GameResult.Playing)
    (hne : get_available_moves board ≠ [])
    (hp : player ≠ Player.None)
    (hch : ∀ l : List Int, l ≠ [] → ch l ∈ l) :
    ∃ (i : Nat) (M : NodesMap),
      get_best_move ch 10 board player true 0 [] = some ((i : Int), M) ∧
      board.getD i Player.None = Player.None ∧
      i ∈ get_available_moves board ∧
      ∀ j ∈ get_available_moves board,
        child_score board player j ≤ child_score board player i := by
  obtain ⟨i, M, h1, h2, h3⟩ := gbm_root board player ch hlen hres hne hp hch
  exact ⟨i, M, h1, ((avail_mem board i).mp h2).2, h2, h3⟩

/-- Witness for C2 on a board with one X in the corner, computer O. -/
theorem claim_best_move_valid_optimal_witness :
    ∃ (i : Nat) (M : NodesMap),
      get_best_move ch0 10
        [Player.X, Player.None, Player.None, Player.None, Player.None, Player.None,
         Player.None, Player.None, Player.None] Player.O true 0 [] = some ((i : Int), M) ∧
      [Player.X, Player.None, Player.None, Player.None, Player.None, Player.None,
         Player.None, Player.None, Player.None].getD i Player.None = Player.None ∧
      i ∈ get_available_moves
        [Player.X, Player.None, Player.None, Player.None, Player.None, Player.None,
         Player.None, Player.None, Player.None] ∧
      ∀ j ∈ get_available_moves
        [Player.X, Player.None, Player.None, Player.None, Player.None, Player.None,
         Player.None, Player.None, Player.None],
        child_score
          [Player.X, Player.None, Player.None, Player.None, Player.None, Player.None,
           Player.None, Player.None, Player.None] Player.O j ≤
        child_score
          [Player.X, Player.None, Player.None, Player.None, Player.None, Player.None,
           Player.None, Player.None, Player.None] Player.O i :=
  claim_best_move_valid_optimal _ Player.O ch0 (by decide) (by decide) (by decide) (by decide)
    ch0_mem

/-- C3 counterexample: on a full (drawn) board the search does not fail:
the terminal branch returns the heuristic score 0 with the scratch map
untouched, even though there are indeed no available moves; the
`unwrap` of the scratch-map lookup (modelled as `Option.none`) is never
reached. -/
theorem claim_full_board_counterexample :
    is_full drawBoard = true ∧
    get_available_moves drawBoard = [] ∧
    get_best_move ch0 10 drawBoard Player.X true 0 [] = some (0, []) := by
  decide

/-- C3 amended: invoking the search on a full 9-cell board hits the
terminal branch — a full board classifies as `Win` or `Draw`, never
`Playing` — and returns the heuristic score immediately (fuel 1 suffices:
the available-moves loop and the scratch-map lookup are never reached,
and no panic occurs). The caller's `is_full` guard matters because the
score would be misread as a move index, not because of a panic. -/
theorem claim_full_board_terminal (ch : List Int → Int) (board : Board) (player : Player)
    (m : NodesMap) (hlen : board.length = 9) (hfull : is_full board = true) :
    get_game_result board ≠ GameResult.Playing ∧
    get_best_move ch 1 board player true 0 m = some (terminal_score board player 0, m) := by
  refine ⟨full_not_playing board hlen hfull, ?_⟩
  exact gbm_terminal_cond ch 0 board player true 0 m
    (by simp [full_not_playing board hlen hfull])

/-- Witness for C3's amended statement at the concrete drawn board. -/
theorem claim_full_board_terminal_witness :
    get_game_result drawBoard ≠ GameResult.Playing ∧
    get_best_move ch0 1 drawBoard Player.X true 0 [] =
      some (terminal_score drawBoard Player.X 0, []) :=
  claim_full_board_terminal ch0 drawBoard Player.X [] (by decide) (by decide)

/-- C4: `play_as_computer` never panics on a 9-cell board: it either
leaves the board unchanged (full board, or a terminal score ±100 whose
`as usize` image fails the bound check) or writes the computer's mark at
an index that is within 0–8 and was `Empty`. -/
theorem claim_computer_bound_check (ch : List Int → Int) (board : Board) (human : Player)
    (hlen : board.length = 9) (hh : human = Player.O ∨ human = Player.X)
    (hch : ∀ l : List Int, l ≠ [] → ch l ∈ l) :
    ∃ b2, play_as_computer ch board human = some b2 ∧
      (b2 = board ∨ ∃ i, i < 9 ∧ board.getD i Player.None = Player.None ∧
        b2 = board.set i human.get_opponent) := by
  have hhn : human ≠ Player.None := by rcases hh with rfl | rfl <;> simp
  by_cases hfull : is_full board = true
  · exact ⟨board, play_full ch board human hfull, Or.inl rfl⟩
  · rcases hgr : get_game_result board with _ | p | _
    · obtain ⟨j, hjmem, _, hplay⟩ := play_playing ch board human hlen hgr hhn hch
      obtain ⟨hj9, hjempty⟩ := (avail_mem board j).mp hjmem
      exact ⟨board.set j human.get_opponent, hplay, Or.inr ⟨j, by omega, hjempty, rfl⟩⟩
    · have hpn := win_ne_none board hlen p hgr
      rcases player_eq_or_opp p human hpn hhn with hpe | hpe
      · rw [hpe] at hgr
        exact ⟨board, (play_win_human ch board human hlen hhn hgr
          (Bool.eq_false_iff.mpr hfull)).2, Or.inl rfl⟩
      · rw [hpe] at hgr
        exact ⟨board, play_win_comp ch board human hlen hhn hgr
          (Bool.eq_false_iff.mpr hfull), Or.inl rfl⟩
    · exact absurd (draw_is_full board hlen hgr) (by simpa using hfull)

/-- Witness for C4 on a one-move board, human O. -/
theorem claim_computer_bound_check_witness :
    ∃ b2, play_as_computer ch0
        [Player.O, Player.None, Player.None, Player.None, Player.None, Player.None,
         Player.None, Player.None, Player.None] Player.O = some b2 ∧
      (b2 = [Player.O, Player.None, Player.None, Player.None, Player.None, Player.None,
         Player.None, Player.None, Player.None] ∨
       ∃ i, i < 9 ∧
         [Player.O, Player.None, Player.None, Player.None, Player.None, Player.None,
          Player.None, Player.None, Player.None].getD i Player.None = Player.None ∧
         b2 = [Player.O, Player.None, Player.None, Player.None, Player.None, Player.None,
           Player.None, Player.None, Player.None].set i Player.O.get_opponent) :=
  claim_computer_bound_check ch0 _ Player.O (by decide) (Or.inl rfl) ch0_mem

/-- C5: whenever the board is terminal (classification is not `Playing`),
`get_best_move` returns `100 − depth` on a win for the perspective player,
`−100 + depth` on a win for that player's opponent, and 0 otherwise, with
the scratch map unchanged — for every board, depth, maximizing flag and
fuel. -/
theorem claim_terminal_heuristic (ch : List Int → Int) (fuel : Nat) (board : Board)
    (player : Player) (x : Bool) (depth : Int) (m : NodesMap)
    (h : get_game_result board ≠ GameResult.Playing) :
    get_best_move ch (fuel + 1) board player x depth m =
      some ((if get_game_result board = GameResult.Win player then 100 - depth
             else if get_game_result board = GameResult.Win player.get_opponent then
               -100 + depth
             else 0), m) := by
  rw [gbm_terminal_cond ch fuel board player x depth m (by simp [h])]
  rfl

/-- Witness for C5 at a top-row O win, perspective O, depth 3. -/
theorem claim_terminal_heuristic_witness :
    get_best_move ch0 1
      [Player.O, Player.O, Player.O, Player.X, Player.X, Player.None, Player.None,
       Player.None, Player.None] Player.O true 3 [] =
      some ((if get_game_result
          [Player.O, Player.O, Player.O, Player.X, Player.X, Player.None, Player.None,
           Player.None, Player.None] = GameResult.Win Player.O then 100 - 3
        else if get_game_result
          [Player.O, Player.O, Player.O, Player.X, Player.X, Player.None, Player.None,
           Player.None, Player.None] = GameResult.Win Player.O.get_opponent then -100 + 3
        else 0), []) :=
  claim_terminal_heuristic ch0 0 _ Player.O true 3 [] (by decide)

/-- C6: a 9-cell board with a completed line of a non-`Empty` mark
classifies as `Win` of that mark even with empty cells remaining; with
several complete lines, the mark is that of the first matching line in
the fixed order rows, columns, diagonals. -/
theorem claim_win_first_line (board : Board) (hlen : board.length = 9) (l : Nat × Nat × Nat)
    (hfind : lines.find? (line_won board) = some l) :
    get_game_result board = GameResult.Win (board.getD l.1 Player.None) :=
  classify_win_line board hlen l hfind

/-- Witness for C6 on a board where both X (row 0, checked first) and O
(row 1) have complete lines and empty cells remain. -/
theorem claim_win_first_line_witness :
    get_game_result
      [Player.X, Player.X, Player.X, Player.O, Player.O, Player.O, Player.None,
       Player.None, Player.None] = GameResult.Win Player.X :=
  claim_win_first_line _ (by decide) ((0 : Nat), (1 : Nat), (2 : Nat)) (by decide)

/-- C7: a 9-cell board with no completed line classifies as `Draw` when
full and `Playing` otherwise (in particular the all-`Empty` board is
`Playing`). -/
theorem claim_no_line_draw_or_playing (board : Board) (hlen : board.length = 9)
    (hfind : lines.find? (line_won board) = Option.none) :
    get_game_result board =
      (if is_full board then GameResult.Draw else GameResult.Playing) :=
  classify_no_line board hlen hfind

/-- Witness for C7 at the all-`Empty` board: the classification is
`Playing`. -/
theorem claim_no_line_draw_or_playing_witness :
    get_game_result get_empty_board = GameResult.Playing := by
  have h := claim_no_line_draw_or_playing get_empty_board (by decide) (by decide)
  simpa using h

/-- C8: `get_available_moves` returns exactly the indices 0–8 of the
`Empty` cells, in strictly ascending order, and is empty exactly when the
board is full. -/
theorem claim_available_moves_spec (board : Board) (hlen : board.length = 9) :
    (∀ i : Nat, i ∈ get_available_moves board ↔
      (i < 9 ∧ board.getD i Player.None = Player.None)) ∧
    List.Pairwise (fun a b => a < b) (get_available_moves board) ∧
    (get_available_moves board = [] ↔ is_full board = true) := by
  refine ⟨?_, avail_pairwise board, avail_nil_iff board⟩
  intro i
  rw [avail_mem board i, hlen]

/-- Witness for C8 on a partly filled board. -/
theorem claim_available_moves_spec_witness :
    (∀ i : Nat, i ∈ get_available_moves
      [Player.X, Player.None, Player.O, Player.None, Player.None, Player.None,
       Player.None, Player.None, Player.X] ↔
      (i < 9 ∧ [Player.X, Player.None, Player.O, Player.None, Player.None, Player.None,
       Player.None, Player.None, Player.X].getD i Player.None = Player.None)) ∧
    List.Pairwise (fun a b => a < b) (get_available_moves
      [Player.X, Player.None, Player.O, Player.None, Player.None, Player.None,
       Player.None, Player.None, Player.X]) ∧
    (get_available_moves
      [Player.X, Player.None, Player.O, Player.None, Player.None, Player.None,
       Player.None, Player.None, Player.X] = [] ↔
     is_full [Player.X, Player.None, Player.O, Player.None, Player.None, Player.None,
       Player.None, Player.None, Player.X] = true) :=
  claim_available_moves_spec _ (by decide)

/-- C9 (frame): the search never mutates its argument — in this pure
embedding every recursive step builds `child_board board mover index`, a
fresh copy of the board that agrees with it everywhere except the chosen
available (hence `Empty`) cell, which now holds the mover's mark; the
count of empty cells drops by exactly one. -/
theorem claim_search_frame (board : Board) (player : Player) (i : Nat)
    (hp : player ≠ Player.None) (hi : i ∈ get_available_moves board) :
    board.getD i Player.None = Player.None ∧
    (child_board board player i).getD i Player.None = player ∧
    (∀ j : Nat, j ≠ i → (child_board board player i).getD j Player.None =
      board.getD j Player.None) ∧
    (child_board board player i).length = board.length ∧
    noneCount board = noneCount (child_board board player i) + 1 := by
  obtain ⟨hlt, hg⟩ := (avail_mem board i).mp hi
  exact ⟨hg, getD_set_self board i player hlt,
    fun j hj => getD_set_ne board i j player (fun hc => hj hc.symm),
    length_child board player i, noneCount_child board player i hi hp⟩

/-- Witness for C9 at cell 4 of a one-move board. -/
theorem claim_search_frame_witness :
    [Player.X, Player.None, Player.None, Player.None, Player.None, Player.None,
     Player.None, Player.None, Player.None].getD 4 Player.None = Player.None ∧
    (child_board
      [Player.X, Player.None, Player.None, Player.None, Player.None, Player.None,
       Player.None, Player.None, Player.None] Player.O 4).getD 4 Player.None = Player.O ∧
    (∀ j : Nat, j ≠ 4 → (child_board
      [Player.X, Player.None, Player.None, Player.None, Player.None, Player.None,
       Player.None, Player.None, Player.None] Player.O 4).getD j Player.None =
      [Player.X, Player.None, Player.None, Player.None, Player.None, Player.None,
       Player.None, Player.None, Player.None].getD j Player.None) ∧
    (child_board
      [Player.X, Player.None, Player.None, Player.None, Player.None, Player.None,
       Player.None, Player.None, Player.None] Player.O 4).length =
      [Player.X, Player.None, Player.None, Player.None, Player.None, Player.None,
       Player.None, Player.None, Player.None].length ∧
    noneCount [Player.X, Player.None, Player.None, Player.None, Player.None, Player.None,
       Player.None, Player.None, Player.None] =
      noneCount (child_board
        [Player.X, Player.None, Player.None, Player.None, Player.None, Player.None,
         Player.None, Player.None, Player.None] Player.O 4) + 1 :=
  claim_search_frame _ Player.O 4 (by decide) (by decide)

/-- C10: a root call on a board the human has just won (and that is not
full) returns the score −100 rather than a cell index; inside
`play_as_computer` the `as usize` cast turns −100 into a huge index that
fails the bound check, so no computer mark is placed and the board is
returned unchanged. -/
theorem claim_human_win_no_reply (ch : List Int → Int) (board : Board) (human : Player)
    (hh : human = Player.O ∨ human = Player.X) (hlen : board.length = 9)
    (hwin : get_game_result board = GameResult.Win human)
    (hnf : is_full board = false) :
    get_best_move ch 10 board human.get_opponent true 0 [] = some (-100, []) ∧
    play_as_computer ch board human = some board := by
  have hhn : human ≠ Player.None := by rcases hh with rfl | rfl <;> simp
  exact play_win_human ch board human hlen hhn hwin hnf

/-- Witness for C10 at a top-row human (O) win. -/
theorem claim_human_win_no_reply_witness :
    get_best_move ch0 10
      [Player.O, Player.O, Player.O, Player.X, Player.X, Player.None, Player.None,
       Player.None, Player.None] Player.O.get_opponent true 0 [] = some (-100, []) ∧
    play_as_computer ch0
      [Player.O, Player.O, Player.O, Player.X, Player.X, Player.None, Player.None,
       Player.None, Player.None] Player.O =
      some [Player.O, Player.O, Player.O, Player.X, Player.X, Player.None, Player.None,
       Player.None, Player.None] :=
  claim_human_win_no_reply ch0 _ Player.O (Or.inl rfl) (by decide) (by decide) (by decide)

end TicTacToe
